import Mathlib

/-!
Shallow embedding of the raster-to-vector pipeline in `app/vectorize.py`.

The external image library (decoding, blurring, thresholding, connected
components, skeletonization, probabilistic line detection) is out of the
repository; its results enter the model as data: the foreground pixel list
that survives component cleanup, and the optional list of detected lines in
ROI coordinates.  Everything from line 85 of `vectorize.py` onward (shift,
angle snapping, length filter, border filter, dedup dictionary, sort, cap,
fit-to-box normalization) is embedded directly.

Numbers: Python floats are modelled as exact rationals `ℚ`; the angle
computation (`math.atan2`, `math.degrees`, `%`) is modelled over `ℝ`.
Comparisons of `math.hypot` values are modelled by comparisons of squared
lengths, which is exactly equivalent because `Real.sqrt` is monotone
(justified by the bridge lemmas `sqrt_hypotSq_le_iff` and
`sqrt_hypotSq_lt_iff` below).
-/

namespace Vectorize

/-- CAD_BOX = {"x0": 30.0, "y0": 40.0, "w": 150.0, "h": 100.0} (vectorize.py line 7). -/
def CAD_BOX_x0 : ℚ := 30

/-- CAD_BOX y0 component. -/
def CAD_BOX_y0 : ℚ := 40

/-- CAD_BOX w component. -/
def CAD_BOX_w : ℚ := 150

/-- CAD_BOX h component. -/
def CAD_BOX_h : ℚ := 100

/-- The `Segment` dataclass (vectorize.py lines 10-15): four float coordinates. -/
structure Segment where
  x1 : ℚ
  y1 : ℚ
  x2 : ℚ
  y2 : ℚ
deriving DecidableEq

/-- A raw pixel-space candidate: the Python 4-tuple `(x1, y1, x2, y2)` of floats
used between lines 85 and 141 of `vectorize.py`. -/
structure Cand where
  x1 : ℚ
  y1 : ℚ
  x2 : ℚ
  y2 : ℚ
deriving DecidableEq

/-- Python `int(q)` on a float: truncation toward zero. -/
def pyInt (q : ℚ) : ℤ := if 0 ≤ q then ⌊q⌋ else -⌊-q⌋

/-- Python `round(q)` on a float: round half to even. -/
def pyRound (q : ℚ) : ℤ :=
  if q - ⌊q⌋ < 1/2 then ⌊q⌋
  else if 1/2 < q - ⌊q⌋ then ⌊q⌋ + 1
  else if Even ⌊q⌋ then ⌊q⌋ else ⌊q⌋ + 1

/-- Python list slicing `l[:n]`, including the negative-index case
(`l[:-k]` drops the last `k` elements). -/
def pySlice {α : Type} (l : List α) (n : ℤ) : List α :=
  if 0 ≤ n then l.take n.toNat else l.take ((l.length : ℤ) + n).toNat

/-- Python `math.atan2 y x` (range `(-π, π]`, `atan2 0 0 = 0`). -/
noncomputable def pyAtan2 (y x : ℝ) : ℝ :=
  if 0 < x then Real.arctan (y / x)
  else if x < 0 then
    (if 0 ≤ y then Real.arctan (y / x) + Real.pi else Real.arctan (y / x) - Real.pi)
  else if 0 < y then Real.pi / 2
  else if y < 0 then -(Real.pi / 2)
  else 0

/-- Python float `a % b` for `b > 0`: `a - b * floor (a / b)`. -/
noncomputable def pyFMod (a b : ℝ) : ℝ := a - b * ⌊a / b⌋

/-- ang = abs(math.degrees(math.atan2(dy, dx))) % 180  (vectorize.py line 100). -/
noncomputable def angleDeg (dx dy : ℚ) : ℝ :=
  pyFMod |pyAtan2 (dy : ℝ) (dx : ℝ) * (180 / Real.pi)| 180

/-- The horizontal snap window `ang < 8 or ang > 172` (vectorize.py line 101). -/
def hWin (dx dy : ℚ) : Prop := angleDeg dx dy < 8 ∨ 172 < angleDeg dx dy

/-- The vertical snap window `82 < ang < 98` (vectorize.py line 103). -/
def vWin (dx dy : ℚ) : Prop := 82 < angleDeg dx dy ∧ angleDeg dx dy < 98

/-- The diagonal snap window `38 < ang < 52 or 128 < ang < 142`
(vectorize.py line 105). -/
def dWin (dx dy : ℚ) : Prop :=
  (38 < angleDeg dx dy ∧ angleDeg dx dy < 52) ∨
    (128 < angleDeg dx dy ∧ angleDeg dx dy < 142)

noncomputable instance (dx dy : ℚ) : Decidable (hWin dx dy) :=
  decidable_of_iff (angleDeg dx dy < 8 ∨ 172 < angleDeg dx dy) Iff.rfl

noncomputable instance (dx dy : ℚ) : Decidable (vWin dx dy) :=
  decidable_of_iff (82 < angleDeg dx dy ∧ angleDeg dx dy < 98) Iff.rfl

noncomputable instance (dx dy : ℚ) : Decidable (dWin dx dy) :=
  decidable_of_iff
    ((38 < angleDeg dx dy ∧ angleDeg dx dy < 52) ∨
      (128 < angleDeg dx dy ∧ angleDeg dx dy < 142)) Iff.rfl

/-- The `snap_angle` closure (vectorize.py lines 98-112). -/
noncomputable def snap_angle (x1 y1 x2 y2 : ℚ) : Cand :=
  if hWin (x2 - x1) (y2 - y1) then ⟨x1, y1, x2, y1⟩
  else if vWin (x2 - x1) (y2 - y1) then ⟨x1, y1, x1, y2⟩
  else if dWin (x2 - x1) (y2 - y1) then
    ⟨x1, y1,
      x1 + (if 0 ≤ x2 - x1 then (1 : ℚ) else -1) * max |x2 - x1| |y2 - y1|,
      y1 + (if 0 ≤ y2 - y1 then (1 : ℚ) else -1) * max |x2 - x1| |y2 - y1|⟩
  else ⟨x1, y1, x2, y2⟩

/-- Vertical midpoint `(s[1] + s[3]) * 0.5`, the primary sort key
(vectorize.py line 140). -/
def midY (c : Cand) : ℚ := (c.y1 + c.y2) * (1/2)

/-- Horizontal midpoint `(s[0] + s[2]) * 0.5`, the secondary sort key. -/
def midX (c : Cand) : ℚ := (c.x1 + c.x2) * (1/2)

/-- Squared segment length; `math.hypot (x2-x1) (y2-y1)` squared. -/
def lenSq (c : Cand) : ℚ := (c.x2 - c.x1)^2 + (c.y2 - c.y1)^2

/-- The total preorder realized by Python's stable sort with key
`(midY, midX, -hypot)` (vectorize.py line 140).  The third component compares
`-length`; `-hypot s ≤ -hypot t` holds iff `lenSq t ≤ lenSq s` because
`Real.sqrt` is monotone (see `sqrt_lenSq_le_iff`). -/
def candLe (s t : Cand) : Prop :=
  midY s < midY t ∨
    (midY s = midY t ∧ (midX s < midX t ∨ (midX s = midX t ∧ lenSq t ≤ lenSq s)))

instance : DecidableRel candLe :=
  fun s t =>
    decidable_of_iff
      (midY s < midY t ∨
        (midY s = midY t ∧
          (midX s < midX t ∨ (midX s = midX t ∧ lenSq t ≤ lenSq s)))) Iff.rfl

instance : IsTotal Cand candLe where
  total := by
    intro a b
    unfold candLe
    rcases lt_trichotomy (midY a) (midY b) with h | h | h
    · exact Or.inl (Or.inl h)
    · rcases lt_trichotomy (midX a) (midX b) with h2 | h2 | h2
      · exact Or.inl (Or.inr ⟨h, Or.inl h2⟩)
      · rcases le_total (lenSq b) (lenSq a) with h3 | h3
        · exact Or.inl (Or.inr ⟨h, Or.inr ⟨h2, h3⟩⟩)
        · exact Or.inr (Or.inr ⟨h.symm, Or.inr ⟨h2.symm, h3⟩⟩)
      · exact Or.inr (Or.inr ⟨h.symm, Or.inl h2⟩)
    · exact Or.inr (Or.inl h)

instance : IsTrans Cand candLe where
  trans := by
    intro a b c hab hbc
    unfold candLe at *
    rcases hab with h1 | ⟨e1, h1⟩ <;> rcases hbc with h2 | ⟨e2, h2⟩
    · exact Or.inl (lt_trans h1 h2)
    · exact Or.inl (e2 ▸ h1)
    · exact Or.inl (e1 ▸ h2)
    · refine Or.inr ⟨e1.trans e2, ?_⟩
      rcases h1 with h1 | ⟨f1, h1⟩ <;> rcases h2 with h2 | ⟨f2, h2⟩
      · exact Or.inl (lt_trans h1 h2)
      · exact Or.inl (f2 ▸ h1)
      · exact Or.inl (f1 ▸ h2)
      · exact Or.inr ⟨f1.trans f2, le_trans h2 h1⟩

/-- One rounded endpoint `(round(x / 2), round(y / 2))` (vectorize.py
lines 130-131). -/
def roundPt (x y : ℚ) : ℤ × ℤ := (pyRound (x / 2), pyRound (y / 2))

/-- Lexicographic order on rounded endpoints, as used by Python's
`sorted((a, b))` on two pairs. -/
def pairLe (a b : ℤ × ℤ) : Prop := a.1 < b.1 ∨ (a.1 = b.1 ∧ a.2 ≤ b.2)

instance : DecidableRel pairLe :=
  fun a b => decidable_of_iff (a.1 < b.1 ∨ (a.1 = b.1 ∧ a.2 ≤ b.2)) Iff.rfl

/-- The canonical deduplication key `k = tuple(sorted((a, b)))` flattened to a
4-tuple (vectorize.py lines 130-133). -/
def canonKey (x1 y1 x2 y2 : ℚ) : ℤ × ℤ × ℤ × ℤ :=
  if pairLe (roundPt x1 y1) (roundPt x2 y2) then
    ((roundPt x1 y1).1, (roundPt x1 y1).2, (roundPt x2 y2).1, (roundPt x2 y2).2)
  else
    ((roundPt x2 y2).1, (roundPt x2 y2).2, (roundPt x1 y1).1, (roundPt x1 y1).2)

/-- Canonical key of a pixel-space candidate. -/
def canonKeyC (c : Cand) : ℤ × ℤ × ℤ × ℤ := canonKey c.x1 c.y1 c.x2 c.y2

/-- Canonical key formula applied to an output Segment's coordinates. -/
def canonKeySeg (s : Segment) : ℤ × ℤ × ℤ × ℤ := canonKey s.x1 s.y1 s.x2 s.y2

/-- The pixel-space region `(min_x, max_x, min_y, max_y)` of foreground pixels
(vectorize.py lines 67-68). -/
structure Region where
  min_x : ℤ
  max_x : ℤ
  min_y : ℤ
  max_y : ℤ
deriving DecidableEq

/-- Squared region diagonal; `math.hypot (max_x - min_x) (max_y - min_y)`
squared (vectorize.py line 94). -/
def diagSq (r : Region) : ℚ :=
  ((r.max_x - r.min_x : ℤ) : ℚ)^2 + ((r.max_y - r.min_y : ℤ) : ℚ)^2

/-- Squared `min_len = max(8.0, diag * 0.03)` (vectorize.py line 95); squaring
commutes with `max` of nonnegatives. -/
def minLenSq (r : Region) : ℚ := max 64 (diagSq r * (9/10000))

/-- Squared `max_len = diag * 0.75` (vectorize.py line 96). -/
def maxLenSq (r : Region) : ℚ := diagSq r * (9/16)

/-- margin_x = int((max_x - min_x) * 0.015) (vectorize.py line 115). -/
def margin_x (r : Region) : ℤ := pyInt (((r.max_x - r.min_x : ℤ) : ℚ) * (3/200))

/-- margin_y = int((max_y - min_y) * 0.015) (vectorize.py line 116). -/
def margin_y (r : Region) : ℤ := pyInt (((r.max_y - r.min_y : ℤ) : ℚ) * (3/200))

/-- Border test along x (vectorize.py line 125): both endpoints in the left
margin band, or both in the right margin band. -/
def onBorderX (r : Region) (c : Cand) : Prop :=
  (c.x1 ≤ ((r.min_x + margin_x r : ℤ) : ℚ) ∧ c.x2 ≤ ((r.min_x + margin_x r : ℤ) : ℚ)) ∨
    (((r.max_x - margin_x r : ℤ) : ℚ) ≤ c.x1 ∧ ((r.max_x - margin_x r : ℤ) : ℚ) ≤ c.x2)

/-- Border test along y (vectorize.py line 127). -/
def onBorderY (r : Region) (c : Cand) : Prop :=
  (c.y1 ≤ ((r.min_y + margin_y r : ℤ) : ℚ) ∧ c.y2 ≤ ((r.min_y + margin_y r : ℤ) : ℚ)) ∨
    (((r.max_y - margin_y r : ℤ) : ℚ) ≤ c.y1 ∧ ((r.max_y - margin_y r : ℤ) : ℚ) ≤ c.y2)

instance (r : Region) (c : Cand) : Decidable (onBorderX r c) := by
  unfold onBorderX
  infer_instance

instance (r : Region) (c : Cand) : Decidable (onBorderY r c) := by
  unfold onBorderY
  infer_instance

/-- Insertion into the `uniq` dictionary (vectorize.py line 134), with Python
dict semantics: an existing key keeps its position and gets the new value
(last write wins); a new key is appended. -/
def dictInsert (d : List ((ℤ × ℤ × ℤ × ℤ) × Cand)) (k : ℤ × ℤ × ℤ × ℤ) (v : Cand) :
    List ((ℤ × ℤ × ℤ × ℤ) × Cand) :=
  if ∃ p ∈ d, p.1 = k then d.map (fun p => if p.1 = k then (k, v) else p)
  else d ++ [(k, v)]

/-- The body of the filtering loop after `snap_angle` has been applied
(vectorize.py lines 120-134): length bounds, border exclusion, dict insert. -/
def dedupPost (r : Region) (uniq : List ((ℤ × ℤ × ℤ × ℤ) × Cand)) (c : Cand) :
    List ((ℤ × ℤ × ℤ × ℤ) × Cand) :=
  if lenSq c < minLenSq r ∨ maxLenSq r < lenSq c then uniq
  else if onBorderX r c then uniq
  else if onBorderY r c then uniq
  else dictInsert uniq (canonKeyC c) c

/-- One iteration of the loop over raw candidates (vectorize.py lines
118-134): snap the angle, then filter and insert. -/
noncomputable def dedupStep (r : Region) (uniq : List ((ℤ × ℤ × ℤ × ℤ) × Cand))
    (c : Cand) : List ((ℤ × ℤ × ℤ × ℤ) × Cand) :=
  dedupPost r uniq (snap_angle c.x1 c.y1 c.x2 c.y2)

/-- The full `uniq` dictionary built by the loop. -/
noncomputable def buildUniq (r : Region) (raw : List Cand) :
    List ((ℤ × ℤ × ℤ × ℤ) × Cand) :=
  raw.foldl (dedupStep r) []

/-- Shift of one Hough line from ROI coordinates to absolute pixel coordinates
(vectorize.py lines 86-92). -/
def shiftLine (r : Region) (l : ℤ × ℤ × ℤ × ℤ) : Cand :=
  ⟨((l.1 + r.min_x : ℤ) : ℚ), ((l.2.1 + r.min_y : ℤ) : ℚ),
    ((l.2.2.1 + r.min_x : ℤ) : ℚ), ((l.2.2.2 + r.min_y : ℤ) : ℚ)⟩

/-- The `raw` candidate list (vectorize.py lines 85-92). -/
def rawCands (r : Region) (lines : List (ℤ × ℤ × ℤ × ℤ)) : List Cand :=
  lines.map (shiftLine r)

/-- segs = list(uniq.values()) (vectorize.py line 136). -/
noncomputable def dedupVals (r : Region) (lines : List (ℤ × ℤ × ℤ × ℤ)) : List Cand :=
  (buildUniq r (rawCands r lines)).map Prod.snd

/-- segs.sort(key=...) (vectorize.py line 140).  Python's sort is a stable
sort by the key; a stable sort with respect to a total preorder has a unique
result, so insertion sort models it exactly. -/
noncomputable def sortedCands (r : Region) (lines : List (ℤ × ℤ × ℤ × ℤ)) : List Cand :=
  List.insertionSort candLe (dedupVals r lines)

/-- segs = segs[:max_segments] (vectorize.py line 141). -/
noncomputable def cappedCands (r : Region) (lines : List (ℤ × ℤ × ℤ × ℤ))
    (max_segments : ℤ) : List Cand :=
  pySlice (sortedCands r lines) max_segments

/-- Python `min` of a nonempty float list (defaulting to 0 on `[]`, where the
real `min` raises; that raise is modelled in `processLines`). -/
def pyMin : List ℚ → ℚ
  | [] => 0
  | a :: t => t.foldl min a

/-- Python `max` of a nonempty float list. -/
def pyMax : List ℚ → ℚ
  | [] => 0
  | a :: t => t.foldl max a

/-- xs2 = [s[0] for s in segs] + [s[2] for s in segs] (vectorize.py line 143). -/
def xsOf (l : List Cand) : List ℚ := l.map Cand.x1 ++ l.map Cand.x2

/-- ys2 = [s[1] for s in segs] + [s[3] for s in segs] (vectorize.py line 144). -/
def ysOf (l : List Cand) : List ℚ := l.map Cand.y1 ++ l.map Cand.y2

/-- sx0 = min(xs2) (vectorize.py line 145). -/
def sx0 (l : List Cand) : ℚ := pyMin (xsOf l)

/-- sx1 = max(xs2) (vectorize.py line 145). -/
def sx1 (l : List Cand) : ℚ := pyMax (xsOf l)

/-- sy0 = min(ys2) (vectorize.py line 146). -/
def sy0 (l : List Cand) : ℚ := pyMin (ysOf l)

/-- sy1 = max(ys2) (vectorize.py line 146). -/
def sy1 (l : List Cand) : ℚ := pyMax (ysOf l)

/-- span_x = max(1.0, sx1 - sx0) (vectorize.py line 147). -/
def span_x (l : List Cand) : ℚ := max 1 (sx1 l - sx0 l)

/-- span_y = max(1.0, sy1 - sy0) (vectorize.py line 148). -/
def span_y (l : List Cand) : ℚ := max 1 (sy1 l - sy0 l)

/-- scale = min(CAD_BOX w / span_x, CAD_BOX h / span_y) (vectorize.py line 150). -/
def scale (l : List Cand) : ℚ := min (CAD_BOX_w / span_x l) (CAD_BOX_h / span_y l)

/-- nx = CAD_BOX x0 + (x - sx0) * scale (vectorize.py lines 153, 155). -/
def normPointX (l : List Cand) (x : ℚ) : ℚ := CAD_BOX_x0 + (x - sx0 l) * scale l

/-- ny = CAD_BOX y0 + (sy1 - y) * scale: vertical flip (vectorize.py
lines 154, 156). -/
def normPointY (l : List Cand) (y : ℚ) : ℚ := CAD_BOX_y0 + (sy1 l - y) * scale l

/-- The normalized Segment built from one candidate. -/
def normSeg (l : List Cand) (c : Cand) : Segment :=
  ⟨normPointX l c.x1, normPointY l c.y1, normPointX l c.x2, normPointY l c.y2⟩

/-- The result loop (vectorize.py lines 151-159): map every capped candidate
into the target box, dropping segments of mapped taxicab length below 0.5. -/
def normalizeList (l : List Cand) : List Segment :=
  l.filterMap (fun c =>
    if |normPointX l c.x1 - normPointX l c.x2| +
        |normPointY l c.y1 - normPointY l c.y2| < 1/2 then none
    else some (normSeg l c))

/-- Lines 85-161 of `vectorize.py`, from the raw Hough result to the returned
list.  `none` models the uncaught `ValueError` raised by `min([])` when the
capped list is empty (possible when `max_segments <= 0`); every other path
returns a list. -/
noncomputable def processLines (r : Region) (lines : List (ℤ × ℤ × ℤ × ℤ))
    (max_segments : ℤ) : Option (List Segment) :=
  if dedupVals r lines = [] then some []
  else
    match cappedCands r lines max_segments with
    | [] => none
    | c :: cs => some (normalizeList (c :: cs))

/-- The data produced by the external image library for one invocation:
either the import failed, or decoding failed (`cv2.imread` returned None),
or it produced the foreground pixels `(x, y)` remaining after connected
component cleanup together with the optional `HoughLinesP` result. -/
inductive CVInput where
  | importUnavailable : CVInput
  | decodeFailed : CVInput
  | decoded (pixels : List (ℤ × ℤ)) (hough : Option (List (ℤ × ℤ × ℤ × ℤ))) : CVInput

/-- Python `min` over a nonempty integer list. -/
def pyMinInt : List ℤ → ℤ
  | [] => 0
  | a :: t => t.foldl min a

/-- Python `max` over a nonempty integer list. -/
def pyMaxInt : List ℤ → ℤ
  | [] => 0
  | a :: t => t.foldl max a

/-- min_x, max_x = int(xs.min()), int(xs.max()); min_y, max_y likewise
(vectorize.py lines 67-68). -/
def regionOf (pixels : List (ℤ × ℤ)) : Region :=
  ⟨pyMinInt (pixels.map Prod.fst), pyMaxInt (pixels.map Prod.fst),
    pyMinInt (pixels.map Prod.snd), pyMaxInt (pixels.map Prod.snd)⟩

/-- roi = cleaned[min_y:max_y, min_x:max_x]; roi.size == 0 iff a slice axis is
empty (vectorize.py lines 69-70). -/
def roiEmpty (pixels : List (ℤ × ℤ)) : Prop :=
  (regionOf pixels).max_x - (regionOf pixels).min_x ≤ 0 ∨
    (regionOf pixels).max_y - (regionOf pixels).min_y ≤ 0

instance (pixels : List (ℤ × ℤ)) : Decidable (roiEmpty pixels) := by
  unfold roiEmpty
  infer_instance

/-- ImageVectorizer.extract_segments (vectorize.py lines 40-161) over the
external library's outcome.  Returns `some []` on import failure, decode
failure, fewer than 20 foreground pixels, an empty ROI, or no Hough lines. -/
noncomputable def extract_segments (inp : CVInput) (max_segments : ℤ) :
    Option (List Segment) :=
  match inp with
  | .importUnavailable => some []
  | .decodeFailed => some []
  | .decoded pixels hough =>
    if pixels.length < 20 then some []
    else if roiEmpty pixels then some []
    else
      match hough with
      | none => some []
      | some lines => processLines (regionOf pixels) lines max_segments

theorem lenSq_nonneg (c : Cand) : 0 ≤ lenSq c :=
  add_nonneg (sq_nonneg _) (sq_nonneg _)

/-- Bridge: comparing `math.hypot` values is the same as comparing the squared
lengths used throughout the embedding. -/
theorem sqrt_lenSq_le_iff (s t : Cand) :
    Real.sqrt (lenSq s : ℝ) ≤ Real.sqrt (lenSq t : ℝ) ↔ lenSq s ≤ lenSq t := by
  rw [Real.sqrt_le_sqrt_iff (by exact_mod_cast lenSq_nonneg t)]
  exact_mod_cast Iff.rfl

/-- Bridge for the strict length-filter comparisons. -/
theorem sqrt_lenSq_lt_iff (s t : Cand) :
    Real.sqrt (lenSq s : ℝ) < Real.sqrt (lenSq t : ℝ) ↔ lenSq s < lenSq t := by
  rw [Real.sqrt_lt_sqrt_iff (by exact_mod_cast lenSq_nonneg s)]
  exact_mod_cast Iff.rfl

theorem angleDeg_horiz (dx : ℚ) (h : 0 < dx) : angleDeg dx 0 = 0 := by
  have hx : (0:ℝ) < (dx : ℝ) := by exact_mod_cast h
  unfold angleDeg pyFMod pyAtan2
  rw [if_pos hx]
  simp

theorem angleDeg_vert (dy : ℚ) (h : 0 < dy) : angleDeg 0 dy = 90 := by
  have hy : (0:ℝ) < (dy : ℝ) := by exact_mod_cast h
  have h0 : (((0:ℚ)) : ℝ) = 0 := by norm_num
  unfold angleDeg pyFMod pyAtan2
  rw [h0, if_neg (lt_irrefl (0:ℝ)), if_neg (lt_irrefl (0:ℝ)), if_pos hy]
  have hpi : Real.pi / 2 * (180 / Real.pi) = 90 := by
    field_simp
    ring
  rw [hpi]
  have h90 : |(90:ℝ)| = 90 := abs_of_nonneg (by norm_num)
  rw [h90]
  have hf : ⌊(90:ℝ)/180⌋ = 0 := by
    rw [Int.floor_eq_zero_iff]
    norm_num [Set.mem_Ico]
  rw [hf]
  norm_num

theorem hWin_horiz (dx : ℚ) (h : 0 < dx) : hWin dx 0 := by
  unfold hWin
  rw [angleDeg_horiz dx h]
  norm_num

theorem not_hWin_vert (dy : ℚ) (h : 0 < dy) : ¬ hWin 0 dy := by
  unfold hWin
  rw [angleDeg_vert dy h]
  norm_num

theorem vWin_vert (dy : ℚ) (h : 0 < dy) : vWin 0 dy := by
  unfold vWin
  rw [angleDeg_vert dy h]
  norm_num

/-- The horizontal and vertical snap windows are disjoint. -/
theorem hWin_vWin_false {dx dy : ℚ} (h1 : hWin dx dy) (h2 : vWin dx dy) : False := by
  unfold hWin vWin at *
  rcases h1 with h1 | h1 <;> linarith [h2.1, h2.2]

/-- A horizontal candidate with increasing x is inside the horizontal window
and is returned unchanged by `snap_angle`. -/
theorem snap_horiz (x1 y1 x2 : ℚ) (h : x1 < x2) :
    snap_angle x1 y1 x2 y1 = ⟨x1, y1, x2, y1⟩ := by
  have hd : (0:ℚ) < x2 - x1 := sub_pos.mpr h
  have hh : hWin (x2 - x1) (y1 - y1) := by
    rw [sub_self]
    exact hWin_horiz _ hd
  unfold snap_angle
  rw [if_pos hh]

/-- A vertical candidate with increasing y is inside the vertical window and
is returned unchanged by `snap_angle`. -/
theorem snap_vert (x1 y1 y2 : ℚ) (h : y1 < y2) :
    snap_angle x1 y1 x1 y2 = ⟨x1, y1, x1, y2⟩ := by
  have hd : (0:ℚ) < y2 - y1 := sub_pos.mpr h
  have hs : x1 - x1 = (0:ℚ) := sub_self x1
  unfold snap_angle
  rw [hs, if_neg (not_hWin_vert _ hd), if_pos (vWin_vert _ hd)]

theorem foldl_min_le_init (l : List ℚ) (a : ℚ) : l.foldl min a ≤ a := by
  induction l generalizing a with
  | nil => exact le_refl a
  | cons h t ih => exact le_trans (ih (min a h)) (min_le_left a h)

theorem foldl_min_le_mem {x : ℚ} (l : List ℚ) (a : ℚ) (hx : x ∈ l) :
    l.foldl min a ≤ x := by
  induction l generalizing a with
  | nil => cases hx
  | cons h t ih =>
    rcases List.mem_cons.mp hx with rfl | hx2
    · exact le_trans (foldl_min_le_init t (min a x)) (min_le_right a x)
    · exact ih (min a h) hx2

theorem init_le_foldl_max (l : List ℚ) (a : ℚ) : a ≤ l.foldl max a := by
  induction l generalizing a with
  | nil => exact le_refl a
  | cons h t ih => exact le_trans (le_max_left a h) (ih (max a h))

theorem mem_le_foldl_max {x : ℚ} (l : List ℚ) (a : ℚ) (hx : x ∈ l) :
    x ≤ l.foldl max a := by
  induction l generalizing a with
  | nil => cases hx
  | cons h t ih =>
    rcases List.mem_cons.mp hx with rfl | hx2
    · exact le_trans (le_max_right a x) (init_le_foldl_max t (max a x))
    · exact ih (max a h) hx2

theorem pyMin_le {x : ℚ} {l : List ℚ} (hx : x ∈ l) : pyMin l ≤ x := by
  cases l with
  | nil => cases hx
  | cons a t =>
    rcases List.mem_cons.mp hx with rfl | hx2
    · exact foldl_min_le_init t x
    · exact foldl_min_le_mem t a hx2

theorem le_pyMax {x : ℚ} {l : List ℚ} (hx : x ∈ l) : x ≤ pyMax l := by
  cases l with
  | nil => cases hx
  | cons a t =>
    rcases List.mem_cons.mp hx with rfl | hx2
    · exact init_le_foldl_max t x
    · exact mem_le_foldl_max t a hx2

theorem span_x_pos (l : List Cand) : 0 < span_x l :=
  lt_of_lt_of_le zero_lt_one (le_max_left 1 _)

theorem span_y_pos (l : List Cand) : 0 < span_y l :=
  lt_of_lt_of_le zero_lt_one (le_max_left 1 _)

theorem scale_pos (l : List Cand) : 0 < scale l := by
  refine lt_min (div_pos ?_ (span_x_pos l)) (div_pos ?_ (span_y_pos l)) <;>
    norm_num [CAD_BOX_w, CAD_BOX_h]

theorem normPointX_bounds {l : List Cand} {x : ℚ} (hx : x ∈ xsOf l) :
    CAD_BOX_x0 ≤ normPointX l x ∧ normPointX l x ≤ CAD_BOX_x0 + CAD_BOX_w := by
  have h1 : sx0 l ≤ x := pyMin_le hx
  have h2 : x ≤ sx1 l := le_pyMax hx
  have hs : 0 ≤ scale l := le_of_lt (scale_pos l)
  constructor
  · exact le_add_of_nonneg_right (mul_nonneg (sub_nonneg.mpr h1) hs)
  · have hb : x - sx0 l ≤ span_x l :=
      le_trans (by linarith) (le_max_right 1 (sx1 l - sx0 l))
    have hc : (x - sx0 l) * scale l ≤ CAD_BOX_w := by
      calc (x - sx0 l) * scale l ≤ span_x l * scale l :=
            mul_le_mul_of_nonneg_right hb hs
        _ ≤ span_x l * (CAD_BOX_w / span_x l) :=
            mul_le_mul_of_nonneg_left (min_le_left _ _) (le_of_lt (span_x_pos l))
        _ = CAD_BOX_w := by
            rw [mul_comm, div_mul_cancel₀ _ (ne_of_gt (span_x_pos l))]
    unfold normPointX
    linarith

theorem normPointY_bounds {l : List Cand} {y : ℚ} (hy : y ∈ ysOf l) :
    CAD_BOX_y0 ≤ normPointY l y ∧ normPointY l y ≤ CAD_BOX_y0 + CAD_BOX_h := by
  have h1 : sy0 l ≤ y := pyMin_le hy
  have h2 : y ≤ sy1 l := le_pyMax hy
  have hs : 0 ≤ scale l := le_of_lt (scale_pos l)
  constructor
  · exact le_add_of_nonneg_right (mul_nonneg (sub_nonneg.mpr h2) hs)
  · have hb : sy1 l - y ≤ span_y l := by
      have h0 : sy0 l ≤ y := h1
      have : sy1 l - y ≤ sy1 l - sy0 l := by linarith
      exact le_trans this (le_max_right 1 (sy1 l - sy0 l))
    have hc : (sy1 l - y) * scale l ≤ CAD_BOX_h := by
      calc (sy1 l - y) * scale l ≤ span_y l * scale l :=
            mul_le_mul_of_nonneg_right hb hs
        _ ≤ span_y l * (CAD_BOX_h / span_y l) :=
            mul_le_mul_of_nonneg_left (min_le_right _ _) (le_of_lt (span_y_pos l))
        _ = CAD_BOX_h := by
            rw [mul_comm, div_mul_cancel₀ _ (ne_of_gt (span_y_pos l))]
    unfold normPointY
    linarith

/-- Containment predicate: all four coordinates inside the target box. -/
def inBox (s : Segment) : Prop :=
  (CAD_BOX_x0 ≤ s.x1 ∧ s.x1 ≤ CAD_BOX_x0 + CAD_BOX_w) ∧
    (CAD_BOX_y0 ≤ s.y1 ∧ s.y1 ≤ CAD_BOX_y0 + CAD_BOX_h) ∧
    (CAD_BOX_x0 ≤ s.x2 ∧ s.x2 ≤ CAD_BOX_x0 + CAD_BOX_w) ∧
    (CAD_BOX_y0 ≤ s.y2 ∧ s.y2 ≤ CAD_BOX_y0 + CAD_BOX_h)

theorem mem_normalizeList {l : List Cand} {s : Segment} (hs : s ∈ normalizeList l) :
    ∃ c ∈ l, s = normSeg l c := by
  unfold normalizeList at hs
  rcases List.mem_filterMap.mp hs with ⟨c, hc, hok⟩
  refine ⟨c, hc, ?_⟩
  by_cases hcond : |normPointX l c.x1 - normPointX l c.x2| +
      |normPointY l c.y1 - normPointY l c.y2| < 1/2
  · rw [if_pos hcond] at hok
    cases hok
  · rw [if_neg hcond] at hok
    exact (Option.some.inj hok).symm

theorem normSeg_inBox {l : List Cand} {c : Cand} (hc : c ∈ l) : inBox (normSeg l c) := by
  have hx1 : c.x1 ∈ xsOf l := List.mem_append_left _ (List.mem_map_of_mem Cand.x1 hc)
  have hx2 : c.x2 ∈ xsOf l := List.mem_append_right _ (List.mem_map_of_mem Cand.x2 hc)
  have hy1 : c.y1 ∈ ysOf l := List.mem_append_left _ (List.mem_map_of_mem Cand.y1 hc)
  have hy2 : c.y2 ∈ ysOf l := List.mem_append_right _ (List.mem_map_of_mem Cand.y2 hc)
  exact ⟨normPointX_bounds hx1, normPointY_bounds hy1,
    normPointX_bounds hx2, normPointY_bounds hy2⟩

/-- Characterization of every successful return of `extract_segments`: the
result is empty, or it is the normalization of a nonempty capped candidate
list. -/
theorem extract_eq_cases (inp : CVInput) (cap : ℤ) (res : List Segment)
    (h : extract_segments inp cap = some res) :
    res = [] ∨
      ∃ r lines, cappedCands r lines cap ≠ [] ∧
        res = normalizeList (cappedCands r lines cap) := by
  cases inp with
  | importUnavailable => exact Or.inl (Option.some.inj h).symm
  | decodeFailed => exact Or.inl (Option.some.inj h).symm
  | decoded px hough =>
    cases hough with
    | none =>
      simp only [extract_segments] at h
      split_ifs at h <;> exact Or.inl (Option.some.inj h).symm
    | some lines =>
      simp only [extract_segments] at h
      split_ifs at h with h1 h2
      · exact Or.inl (Option.some.inj h).symm
      · exact Or.inl (Option.some.inj h).symm
      · unfold processLines at h
        split_ifs at h with h3
        · exact Or.inl (Option.some.inj h).symm
        · rcases hq : cappedCands (regionOf px) lines cap with _ | ⟨c, cs⟩
          · rw [hq] at h
            cases h
          · rw [hq] at h
            refine Or.inr ⟨regionOf px, lines, by rw [hq]; simp, ?_⟩
            rw [hq]
            exact (Option.some.inj h).symm

/-- Well-formedness of the `uniq` dictionary: stored keys are pairwise
distinct and every stored value hashes to its own key. -/
def UniqWF (d : List ((ℤ × ℤ × ℤ × ℤ) × Cand)) : Prop :=
  (d.map Prod.fst).Nodup ∧ ∀ p ∈ d, canonKeyC p.2 = p.1

theorem dictInsert_wf {d : List ((ℤ × ℤ × ℤ × ℤ) × Cand)} {k : ℤ × ℤ × ℤ × ℤ}
    {v : Cand} (h : UniqWF d) (hv : canonKeyC v = k) : UniqWF (dictInsert d k v) := by
  obtain ⟨hnd, hcons⟩ := h
  unfold dictInsert
  split_ifs with hex
  · constructor
    · have hfst : (Prod.fst ∘ fun p : (ℤ × ℤ × ℤ × ℤ) × Cand =>
          if p.1 = k then (k, v) else p) = Prod.fst := by
        funext p
        by_cases hp : p.1 = k <;> simp [hp]
      rw [List.map_map, hfst]
      exact hnd
    · intro p hp
      rcases List.mem_map.mp hp with ⟨q, hq, rfl⟩
      by_cases hqk : q.1 = k
      · simp only [if_pos hqk]
        exact hv
      · simp only [if_neg hqk]
        exact hcons q hq
  · constructor
    · rw [List.map_append]
      refine List.Nodup.append hnd (List.nodup_singleton k) ?_
      intro a ha hk
      rcases List.mem_map.mp ha with ⟨q, hq, rfl⟩
      simp only [List.map_cons, List.map_nil, List.mem_singleton] at hk
      exact hex ⟨q, hq, hk⟩
    · intro p hp
      rcases List.mem_append.mp hp with hp1 | hp1
      · exact hcons p hp1
      · rw [List.mem_singleton] at hp1
        subst hp1
        exact hv

theorem dedupPost_wf (r : Region) {d : List ((ℤ × ℤ × ℤ × ℤ) × Cand)} {c : Cand}
    (h : UniqWF d) : UniqWF (dedupPost r d c) := by
  unfold dedupPost
  split_ifs <;> first
    | exact h
    | exact dictInsert_wf h rfl

theorem buildUniq_wf (r : Region) (raw : List Cand) : UniqWF (buildUniq r raw) := by
  have main : ∀ (l : List Cand) (d : List ((ℤ × ℤ × ℤ × ℤ) × Cand)),
      UniqWF d → UniqWF (l.foldl (dedupStep r) d) := by
    intro l
    induction l with
    | nil => intro d hd; exact hd
    | cons c t ih =>
      intro d hd
      exact ih _ (dedupPost_wf r hd)
  exact main raw [] ⟨List.nodup_nil, by intro p hp; cases hp⟩

/-- At the deduplication stage, the stored candidates have pairwise distinct
canonical keys. -/
theorem dedupVals_pairwise (r : Region) (lines : List (ℤ × ℤ × ℤ × ℤ)) :
    List.Pairwise (fun a b => canonKeyC a ≠ canonKeyC b) (dedupVals r lines) := by
  obtain ⟨hnd, hcons⟩ := buildUniq_wf r (rawCands r lines)
  have hp : List.Pairwise (fun p q : (ℤ × ℤ × ℤ × ℤ) × Cand => p.1 ≠ q.1)
      (buildUniq r (rawCands r lines)) := List.pairwise_map.mp hnd
  have hp2 : List.Pairwise
      (fun p q : (ℤ × ℤ × ℤ × ℤ) × Cand => canonKeyC p.2 ≠ canonKeyC q.2)
      (buildUniq r (rawCands r lines)) := by
    refine hp.imp_of_mem ?_
    intro p q hpm hqm hne
    rw [hcons p hpm, hcons q hqm]
    exact hne
  exact List.pairwise_map.mpr hp2

theorem pySlice_sublist {α : Type} (l : List α) (n : ℤ) : (pySlice l n).Sublist l := by
  unfold pySlice
  split_ifs <;> exact List.take_sublist _ _

theorem sortedCands_pairwise (r : Region) (lines : List (ℤ × ℤ × ℤ × ℤ)) :
    List.Pairwise (fun a b => canonKeyC a ≠ canonKeyC b) (sortedCands r lines) := by
  have hperm := List.perm_insertionSort candLe (dedupVals r lines)
  exact (hperm.pairwise_iff (fun h => h.symm)).mpr (dedupVals_pairwise r lines)

/-- The relational (big-step) version of `extract_segments`: one constructor
per exit path of the Python function.  Used to state determinism as
functionality of the relation. -/
inductive Extracts : CVInput → ℤ → Option (List Segment) → Prop where
  | importUnavailable (cap : ℤ) : Extracts CVInput.importUnavailable cap (some [])
  | decodeFailed (cap : ℤ) : Extracts CVInput.decodeFailed cap (some [])
  | fewPixels (px : List (ℤ × ℤ)) (hough : Option (List (ℤ × ℤ × ℤ × ℤ))) (cap : ℤ) :
      px.length < 20 → Extracts (CVInput.decoded px hough) cap (some [])
  | emptyRoi (px : List (ℤ × ℤ)) (hough : Option (List (ℤ × ℤ × ℤ × ℤ))) (cap : ℤ) :
      ¬ px.length < 20 → roiEmpty px → Extracts (CVInput.decoded px hough) cap (some [])
  | noLines (px : List (ℤ × ℤ)) (cap : ℤ) :
      ¬ px.length < 20 → ¬ roiEmpty px → Extracts (CVInput.decoded px none) cap (some [])
  | houghLines (px : List (ℤ × ℤ)) (lines : List (ℤ × ℤ × ℤ × ℤ)) (cap : ℤ) :
      ¬ px.length < 20 → ¬ roiEmpty px →
      Extracts (CVInput.decoded px (some lines)) cap
        (processLines (regionOf px) lines cap)

theorem extracts_of_extract (inp : CVInput) (cap : ℤ) :
    Extracts inp cap (extract_segments inp cap) := by
  cases inp with
  | importUnavailable => exact Extracts.importUnavailable cap
  | decodeFailed => exact Extracts.decodeFailed cap
  | decoded px hough =>
    by_cases h1 : px.length < 20
    · have : extract_segments (CVInput.decoded px hough) cap = some [] := by
        simp only [extract_segments, if_pos h1]
      rw [this]
      exact Extracts.fewPixels px hough cap h1
    · by_cases h2 : roiEmpty px
      · have : extract_segments (CVInput.decoded px hough) cap = some [] := by
          simp only [extract_segments, if_neg h1, if_pos h2]
        rw [this]
        exact Extracts.emptyRoi px hough cap h1 h2
      · cases hough with
        | none =>
          have : extract_segments (CVInput.decoded px none) cap = some [] := by
            simp only [extract_segments, if_neg h1, if_neg h2]
          rw [this]
          exact Extracts.noLines px cap h1 h2
        | some lines =>
          have : extract_segments (CVInput.decoded px (some lines)) cap =
              processLines (regionOf px) lines cap := by
            simp only [extract_segments, if_neg h1, if_neg h2]
          rw [this]
          exact Extracts.houghLines px lines cap h1 h2

theorem extracts_functional {inp : CVInput} {cap : ℤ}
    {o₁ o₂ : Option (List Segment)} (h₁ : Extracts inp cap o₁)
    (h₂ : Extracts inp cap o₂) : o₁ = o₂ := by
  cases h₁ <;> cases h₂ <;> first
    | rfl
    | tauto

/-- The image-processing primitives used by `_skeletonize` (vectorize.py
lines 21-38), abstracted: erosion, dilation, subtraction, bitwise or, the
nonzero-pixel count, and the zero mask `np.zeros(bw.shape)`. -/
structure CVOps (Mask : Type) where
  erode : Mask → Mask
  dilate : Mask → Mask
  subtract : Mask → Mask → Mask
  bitwiseOr : Mask → Mask → Mask
  countNonZero : Mask → ℕ
  zerosLike : Mask → Mask

/-- The thinning loop of `_skeletonize` (vectorize.py lines 29-36) with
explicit fuel; returns the accumulated skeleton and the number of loop-body
executions. -/
def skelRun {Mask : Type} (ops : CVOps Mask) : ℕ → Mask → Mask → Mask × ℕ
  | 0, skel, _ => (skel, 0)
  | n + 1, skel, img =>
    let eroded := ops.erode img
    let opened := ops.dilate eroded
    let temp := ops.subtract img opened
    let skel2 := ops.bitwiseOr skel temp
    if ops.countNonZero eroded = 0 then (skel2, 1)
    else ((skelRun ops n skel2 eroded).1, (skelRun ops n skel2 eroded).2 + 1)

/-- ImageVectorizer._skeletonize (vectorize.py lines 21-38): `for _ in
range(300)` with `break` once the eroded mask has no nonzero pixel. -/
def skeletonize {Mask : Type} (ops : CVOps Mask) (bw : Mask) : Mask :=
  (skelRun ops 300 (ops.zerosLike bw) bw).1

/-- Number of erode/reconstruct iterations `_skeletonize` performs. -/
def skeletonizeIters {Mask : Type} (ops : CVOps Mask) (bw : Mask) : ℕ :=
  (skelRun ops 300 (ops.zerosLike bw) bw).2

theorem skelRun_le_fuel {Mask : Type} (ops : CVOps Mask) :
    ∀ (n : ℕ) (skel img : Mask), (skelRun ops n skel img).2 ≤ n := by
  intro n
  induction n with
  | zero => intro skel img; exact le_refl 0
  | succ m ih =>
    intro skel img
    simp only [skelRun]
    split_ifs
    · exact Nat.succ_le_succ (Nat.zero_le m)
    · exact Nat.succ_le_succ (ih _ _)

theorem skelRun_early_exit {Mask : Type} (ops : CVOps Mask) :
    ∀ (n : ℕ) (skel img : Mask) (k : ℕ), 1 ≤ k →
      ops.countNonZero (ops.erode^[k] img) = 0 → (skelRun ops n skel img).2 ≤ k := by
  intro n
  induction n with
  | zero => intro skel img k _ _; exact Nat.zero_le k
  | succ m ih =>
    intro skel img k hk hz
    simp only [skelRun]
    split_ifs with h0
    · exact hk
    · rcases Nat.exists_eq_add_of_le hk with ⟨j, rfl⟩
      cases j with
      | zero =>
        exfalso
        apply h0
        simpa using hz
      | succ i =>
        have hz2 : ops.countNonZero (ops.erode^[i + 1] (ops.erode img)) = 0 := by
          rw [← Function.iterate_succ_apply]
          simpa [Nat.add_comm] using hz
        have := ih (ops.bitwiseOr skel (ops.subtract img (ops.dilate (ops.erode img))))
          (ops.erode img) (i + 1) (Nat.succ_le_succ (Nat.zero_le i)) hz2
        omega

/-- A concrete foreground pixel set: 20 pixels spanning columns 0..60 and
rows 0..1000 (so the <20 pixel guard and the ROI guard both pass). -/
def demoPixels : List (ℤ × ℤ) :=
  [(0, 0), (1, 1), (2, 2), (3, 3), (4, 4), (5, 5), (6, 6), (7, 7), (8, 8),
    (9, 9), (10, 10), (11, 11), (12, 12), (13, 13), (14, 14), (15, 15),
    (16, 16), (17, 17), (18, 18), (60, 1000)]

/-- The region of `demoPixels`. -/
def demoRegion : Region := ⟨0, 60, 0, 1000⟩

/-- A concrete Hough result over `demoPixels`' ROI: two horizontal lines four
pixels apart and one long vertical line. -/
def demoLines : List (ℤ × ℤ × ℤ × ℤ) :=
  [(10, 100, 59, 100), (10, 104, 59, 104), (30, 150, 30, 850)]

theorem demo_region_eval : regionOf demoPixels = demoRegion := by decide

theorem demo_raw_eval :
    rawCands demoRegion demoLines =
      [⟨10, 100, 59, 100⟩, ⟨10, 104, 59, 104⟩, ⟨30, 150, 30, 850⟩] := by
  simp only [rawCands, demoLines, demoRegion, shiftLine, List.map_cons, List.map_nil]
  norm_num

theorem demo_uniq_eval :
    buildUniq demoRegion (rawCands demoRegion demoLines) =
      [((5, 50, 30, 50), ⟨10, 100, 59, 100⟩),
        ((5, 52, 30, 52), ⟨10, 104, 59, 104⟩),
        ((15, 75, 15, 425), ⟨30, 150, 30, 850⟩)] := by
  have hsA : snap_angle (10:ℚ) 100 59 100 = ⟨10, 100, 59, 100⟩ :=
    snap_horiz 10 100 59 (by norm_num)
  have hsB : snap_angle (10:ℚ) 104 59 104 = ⟨10, 104, 59, 104⟩ :=
    snap_horiz 10 104 59 (by norm_num)
  have hsC : snap_angle (30:ℚ) 150 30 850 = ⟨30, 150, 30, 850⟩ :=
    snap_vert 30 150 850 (by norm_num)
  rw [demo_raw_eval]
  simp only [buildUniq, List.foldl, dedupStep, hsA, hsB, hsC]
  norm_num [dedupPost, lenSq, minLenSq, maxLenSq, diagSq, demoRegion,
    onBorderX, onBorderY, margin_x, margin_y, pyInt, dictInsert, canonKeyC,
    canonKey, roundPt, pyRound, pairLe, Int.even_iff]

theorem demo_vals_eval :
    dedupVals demoRegion demoLines =
      [⟨10, 100, 59, 100⟩, ⟨10, 104, 59, 104⟩, ⟨30, 150, 30, 850⟩] := by
  simp only [dedupVals, demo_uniq_eval, List.map_cons, List.map_nil]

theorem demo_sorted_eval :
    sortedCands demoRegion demoLines =
      [⟨10, 100, 59, 100⟩, ⟨10, 104, 59, 104⟩, ⟨30, 150, 30, 850⟩] := by
  simp only [sortedCands, demo_vals_eval, List.insertionSort, List.orderedInsert]
  norm_num [candLe, midY, midX, lenSq]

theorem demo_capped_eval :
    cappedCands demoRegion demoLines 220 =
      [⟨10, 100, 59, 100⟩, ⟨10, 104, 59, 104⟩, ⟨30, 150, 30, 850⟩] := by
  simp only [cappedCands, demo_sorted_eval, pySlice]
  norm_num

/-- First output segment of the demo run. -/
def segA : Segment := ⟨30, 140, 548/15, 140⟩

/-- Second output segment of the demo run; its canonical key collides with
`segA`'s after normalization. -/
def segB : Segment := ⟨30, 2092/15, 548/15, 2092/15⟩

/-- Third output segment of the demo run. -/
def segC : Segment := ⟨98/3, 400/3, 98/3, 40⟩

theorem demo_norm_eval :
    normalizeList [⟨10, 100, 59, 100⟩, ⟨10, 104, 59, 104⟩, ⟨30, 150, 30, 850⟩] =
      [segA, segB, segC] := by
  norm_num [normalizeList, List.filterMap, normSeg, normPointX, normPointY,
    sx0, sx1, sy0, sy1, span_x, span_y, scale, pyMin, pyMax, xsOf, ysOf,
    List.foldl, CAD_BOX_x0, CAD_BOX_y0, CAD_BOX_w, CAD_BOX_h, min_def, max_def,
    segA, segB, segC]
  rw [show |(98:ℚ)/15| = 98/15 from abs_of_nonneg (by norm_num),
    show |(280:ℚ)/3| = 280/3 from abs_of_nonneg (by norm_num)]
  norm_num

theorem demo_proc_eval :
    processLines demoRegion demoLines 220 = some [segA, segB, segC] := by
  simp [processLines, demo_vals_eval, demo_capped_eval, demo_norm_eval]

theorem demo_extract_eval :
    extract_segments (CVInput.decoded demoPixels (some demoLines)) 220 =
      some [segA, segB, segC] := by
  have h1 : ¬ (demoPixels.length < 20) := by decide
  have h2 : ¬ roiEmpty demoPixels := by decide
  simp only [extract_segments, if_neg h1, if_neg h2, demo_region_eval]
  exact demo_proc_eval

theorem demo_cappedNeg_eval :
    cappedCands demoRegion demoLines (-1) =
      [⟨10, 100, 59, 100⟩, ⟨10, 104, 59, 104⟩] := by
  simp only [cappedCands, demo_sorted_eval]
  decide

/-- First output segment of the demo run with `max_segments = -1`. -/
def segA2 : Segment := ⟨30, 2560/49, 180, 2560/49⟩

/-- Second output segment of the demo run with `max_segments = -1`. -/
def segB2 : Segment := ⟨30, 40, 180, 40⟩

theorem demo_normNeg_eval :
    normalizeList [⟨10, 100, 59, 100⟩, ⟨10, 104, 59, 104⟩] = [segA2, segB2] := by
  norm_num [normalizeList, List.filterMap, normSeg, normPointX, normPointY,
    sx0, sx1, sy0, sy1, span_x, span_y, scale, pyMin, pyMax, xsOf, ysOf,
    List.foldl, CAD_BOX_x0, CAD_BOX_y0, CAD_BOX_w, CAD_BOX_h, min_def, max_def,
    segA2, segB2]

theorem demo_procNeg_eval :
    processLines demoRegion demoLines (-1) = some [segA2, segB2] := by
  simp [processLines, demo_vals_eval, demo_cappedNeg_eval, demo_normNeg_eval]

theorem demo_extractNeg_eval :
    extract_segments (CVInput.decoded demoPixels (some demoLines)) (-1) =
      some [segA2, segB2] := by
  have h1 : ¬ (demoPixels.length < 20) := by decide
  have h2 : ¬ roiEmpty demoPixels := by decide
  simp only [extract_segments, if_neg h1, if_neg h2, demo_region_eval]
  exact demo_procNeg_eval

/-- A degenerate demo: a single vertical line, so the capped candidate set has
zero horizontal span. -/
def demo2Lines : List (ℤ × ℤ × ℤ × ℤ) := [(30, 150, 30, 850)]

theorem demo2_capped_eval :
    cappedCands demoRegion demo2Lines 220 = [⟨30, 150, 30, 850⟩] := by
  have hsC : snap_angle (30:ℚ) 150 30 850 = ⟨30, 150, 30, 850⟩ :=
    snap_vert 30 150 850 (by norm_num)
  have hraw : rawCands demoRegion demo2Lines = [⟨30, 150, 30, 850⟩] := by
    simp only [rawCands, demo2Lines, demoRegion, shiftLine, List.map_cons,
      List.map_nil]
    norm_num
  have huniq : buildUniq demoRegion (rawCands demoRegion demo2Lines) =
      [((15, 75, 15, 425), ⟨30, 150, 30, 850⟩)] := by
    rw [hraw]
    simp only [buildUniq, List.foldl, dedupStep, hsC]
    norm_num [dedupPost, lenSq, minLenSq, maxLenSq, diagSq, demoRegion,
      onBorderX, onBorderY, margin_x, margin_y, pyInt, dictInsert, canonKeyC,
      canonKey, roundPt, pyRound, pairLe, Int.even_iff]
  simp only [cappedCands, sortedCands, dedupVals, huniq, List.map_cons,
    List.map_nil, List.insertionSort]
  decide

/-- The single output segment of the degenerate demo. -/
def seg2 : Segment := ⟨30, 140, 30, 40⟩

theorem demo2_norm_eval : normalizeList [⟨30, 150, 30, 850⟩] = [seg2] := by
  norm_num [normalizeList, List.filterMap, normSeg, normPointX, normPointY,
    sx0, sx1, sy0, sy1, span_x, span_y, scale, pyMin, pyMax, xsOf, ysOf,
    List.foldl, CAD_BOX_x0, CAD_BOX_y0, CAD_BOX_w, CAD_BOX_h, min_def, max_def,
    seg2]

/-- C1: every Segment returned by extract_segments has both endpoints inside
the TargetBox rectangle (x in [30, 180], y in [40, 140]); the containment is
exact in the rational model, hence within any positive epsilon. -/
theorem c1_containment (inp : CVInput) (cap : ℤ) (res : List Segment)
    (h : extract_segments inp cap = some res) : ∀ s ∈ res, inBox s := by
  intro s hs
  rcases extract_eq_cases inp cap res h with rfl | ⟨r, lines, _, rfl⟩
  · cases hs
  · rcases mem_normalizeList hs with ⟨c, hc, rfl⟩
    exact normSeg_inBox hc

theorem c1_containment_witness : inBox segA :=
  c1_containment (CVInput.decoded demoPixels (some demoLines)) 220
    [segA, segB, segC] demo_extract_eval segA (List.mem_cons_self segA [segB, segC])

/-- C2 counterexample: on a concrete input, extract_segments returns two
distinct Segments whose canonical keys, computed from the returned
(normalized) coordinates exactly as the claim prescribes, coincide.  The code
computes the keys on the pre-normalization pixel coordinates, and the
fit-to-box scaling can merge distinct keys. -/
theorem c2_counterexample :
    extract_segments (CVInput.decoded demoPixels (some demoLines)) 220 =
        some [segA, segB, segC] ∧
      segA ≠ segB ∧ canonKeySeg segA = canonKeySeg segB := by
  refine ⟨demo_extract_eval, ?_, ?_⟩
  · norm_num [segA, segB]
  · norm_num [canonKeySeg, canonKey, roundPt, pyRound, pairLe, segA, segB,
      Int.even_iff]

/-- C2 amended: the canonical keys are pairwise distinct among the
deduplicated pixel-space candidates that the returned Segments are produced
from (the stage at which the code computes the keys), not among the returned
normalized Segments. -/
theorem c2_amended_no_duplicate_keys (r : Region) (lines : List (ℤ × ℤ × ℤ × ℤ))
    (cap : ℤ) :
    List.Pairwise (fun a b => canonKeyC a ≠ canonKeyC b) (cappedCands r lines cap) :=
  List.Pairwise.sublist (pySlice_sublist _ _) (sortedCands_pairwise r lines)

/-- C3 counterexample: with max_segments = -1 (Python slicing semantics keep
all but the last candidate), the returned list has length 2 > -1. -/
theorem c3_counterexample :
    extract_segments (CVInput.decoded demoPixels (some demoLines)) (-1) =
        some [segA2, segB2] ∧
      ¬ ((([segA2, segB2] : List Segment).length : ℤ) ≤ -1) :=
  ⟨demo_extractNeg_eval, by decide⟩

/-- C3 amended: for every nonnegative max_segments, any returned Segment list
has length at most max_segments. -/
theorem c3_cap_respected (inp : CVInput) (cap : ℤ) (res : List Segment)
    (hcap : 0 ≤ cap) (h : extract_segments inp cap = some res) :
    (res.length : ℤ) ≤ cap := by
  rcases extract_eq_cases inp cap res h with rfl | ⟨r, lines, _, rfl⟩
  · simpa using hcap
  · have h1 : (normalizeList (cappedCands r lines cap)).length ≤
        (cappedCands r lines cap).length := List.length_filterMap_le _ _
    have h2 : (cappedCands r lines cap).length ≤ cap.toNat := by
      unfold cappedCands pySlice
      rw [if_pos hcap]
      exact List.length_take_le _ _
    calc ((normalizeList (cappedCands r lines cap)).length : ℤ)
        ≤ ((cappedCands r lines cap).length : ℤ) := by exact_mod_cast h1
      _ ≤ (cap.toNat : ℤ) := by exact_mod_cast h2
      _ = cap := Int.toNat_of_nonneg hcap

theorem c3_cap_respected_witness :
    (([segA, segB, segC] : List Segment).length : ℤ) ≤ 220 :=
  c3_cap_respected (CVInput.decoded demoPixels (some demoLines)) 220
    [segA, segB, segC] (by decide) demo_extract_eval

/-- C4: a candidate inside the horizontal window gets exactly equal y
endpoints; one inside the vertical window gets exactly equal x endpoints;
these exact equalities survive the fit-to-box normalization (which maps equal
coordinates to equal coordinates); a candidate outside all snap windows is
returned unchanged by snap_angle. -/
theorem c4_angle_snap (x1 y1 x2 y2 : ℚ) (l : List Cand) (c : Cand) :
    (hWin (x2 - x1) (y2 - y1) →
      (snap_angle x1 y1 x2 y2).y1 = (snap_angle x1 y1 x2 y2).y2) ∧
    (vWin (x2 - x1) (y2 - y1) →
      (snap_angle x1 y1 x2 y2).x1 = (snap_angle x1 y1 x2 y2).x2) ∧
    (¬ hWin (x2 - x1) (y2 - y1) → ¬ vWin (x2 - x1) (y2 - y1) →
      ¬ dWin (x2 - x1) (y2 - y1) → snap_angle x1 y1 x2 y2 = ⟨x1, y1, x2, y2⟩) ∧
    (c.y1 = c.y2 → (normSeg l c).y1 = (normSeg l c).y2) ∧
    (c.x1 = c.x2 → (normSeg l c).x1 = (normSeg l c).x2) := by
  refine ⟨?_, ?_, ?_, ?_, ?_⟩
  · intro hh
    unfold snap_angle
    rw [if_pos hh]
  · intro hv
    have hh : ¬ hWin (x2 - x1) (y2 - y1) := fun hh => hWin_vWin_false hh hv
    unfold snap_angle
    rw [if_neg hh, if_pos hv]
  · intro hh hv hd
    unfold snap_angle
    rw [if_neg hh, if_neg hv, if_neg hd]
  · intro he
    unfold normSeg normPointY
    rw [he]
  · intro he
    unfold normSeg normPointX
    rw [he]

theorem c4_angle_snap_witness :
    (snap_angle 0 0 10 0).y1 = (snap_angle 0 0 10 0).y2 := by
  have hh : hWin ((10:ℚ) - 0) (0 - 0) := by
    rw [show ((10:ℚ) - 0) = 10 by norm_num, show ((0:ℚ) - 0) = 0 by norm_num]
    exact hWin_horiz 10 (by norm_num)
  exact (c4_angle_snap 0 0 10 0 [] ⟨0, 0, 0, 0⟩).1 hh

/-- C5: determinism.  The big-step relation `Extracts` (one constructor per
exit path of the code) relates every input to the function's result, and any
two outcomes it relates to the same input and configuration are equal: the
pipeline has no hidden nondeterminism. -/
theorem c5_deterministic :
    (∀ (inp : CVInput) (cap : ℤ), Extracts inp cap (extract_segments inp cap)) ∧
    (∀ (inp : CVInput) (cap : ℤ) (o₁ o₂ : Option (List Segment)),
      Extracts inp cap o₁ → Extracts inp cap o₂ → o₁ = o₂) :=
  ⟨extracts_of_extract, fun _ _ _ _ h₁ h₂ => extracts_functional h₁ h₂⟩

theorem c5_deterministic_witness :
    some ([] : List Segment) = extract_segments CVInput.decodeFailed 220 :=
  c5_deterministic.2 CVInput.decodeFailed 220 (some []) _
    (Extracts.decodeFailed 220) (c5_deterministic.1 CVInput.decodeFailed 220)

/-- C6: unreadable input (import failure or decode failure) and insufficient
content (fewer than 20 foreground pixels) all yield the empty Segment list:
`some []`, never the fault value `none`. -/
theorem c6_error_paths (cap : ℤ) (px : List (ℤ × ℤ))
    (hough : Option (List (ℤ × ℤ × ℤ × ℤ))) :
    extract_segments CVInput.importUnavailable cap = some [] ∧
    extract_segments CVInput.decodeFailed cap = some [] ∧
    (px.length < 20 → extract_segments (CVInput.decoded px hough) cap = some []) := by
  refine ⟨rfl, rfl, fun hl => ?_⟩
  simp only [extract_segments, if_pos hl]

theorem c6_error_paths_witness :
    extract_segments (CVInput.decoded [] none) 220 = some [] :=
  (c6_error_paths 220 [] none).2.2 (by decide)

/-- C7: the thinning stage performs at most 300 erode/reconstruct iterations,
and it stops no later than the first erosion step at which the eroded mask
has no nonzero pixel. -/
theorem c7_skeletonize_bounded {Mask : Type} (ops : CVOps Mask) (bw : Mask) :
    skeletonizeIters ops bw ≤ 300 ∧
    (∀ k : ℕ, 1 ≤ k → ops.countNonZero (ops.erode^[k] bw) = 0 →
      skeletonizeIters ops bw ≤ k) :=
  ⟨skelRun_le_fuel ops 300 _ _, fun k hk hz => skelRun_early_exit ops 300 _ _ k hk hz⟩

/-- Concrete mask algebra for the C7 witness: masks are pixel counts, erosion
halves the count. -/
def demoOps : CVOps ℕ :=
  ⟨fun n => n / 2, id, fun a b => a - b, fun a b => max a b, id, fun _ => 0⟩

theorem c7_skeletonize_bounded_witness : skeletonizeIters demoOps 1 ≤ 1 :=
  (c7_skeletonize_bounded demoOps 1).2 1 (le_refl 1) (by decide)

/-- C8: before capping, the deduplicated candidates are sorted by the key
(ascending vertical midpoint, then ascending horizontal midpoint, then length
descending), the sorted list is a permutation of the deduplicated candidates,
and the retained candidates are exactly the slice of the sorted list. -/
theorem c8_order_and_cap (r : Region) (lines : List (ℤ × ℤ × ℤ × ℤ)) (cap : ℤ) :
    List.Sorted candLe (sortedCands r lines) ∧
    (sortedCands r lines).Perm (dedupVals r lines) ∧
    cappedCands r lines cap = pySlice (sortedCands r lines) cap := by
  refine ⟨?_, ?_, rfl⟩
  · unfold sortedCands
    exact List.sorted_insertionSort candLe _
  · unfold sortedCands
    exact List.perm_insertionSort candLe _

/-- C9: degenerate bounding-box spans are floored to 1 before the scale is
computed, the spans used in the scale are therefore positive, and whenever
the capped candidate list is nonempty the normalization completes with a
returned list (no fault). -/
theorem c9_span_floor (l : List Cand) (r : Region) (lines : List (ℤ × ℤ × ℤ × ℤ))
    (cap : ℤ) :
    (sx1 l - sx0 l ≤ 0 → span_x l = 1) ∧
    (sy1 l - sy0 l ≤ 0 → span_y l = 1) ∧
    0 < span_x l ∧ 0 < span_y l ∧
    (cappedCands r lines cap ≠ [] →
      processLines r lines cap = some (normalizeList (cappedCands r lines cap))) := by
  refine ⟨?_, ?_, span_x_pos l, span_y_pos l, ?_⟩
  · intro hd
    exact max_eq_left (le_trans hd zero_le_one)
  · intro hd
    exact max_eq_left (le_trans hd zero_le_one)
  · intro hne
    unfold processLines
    by_cases hd : dedupVals r lines = []
    · exfalso
      apply hne
      unfold cappedCands sortedCands
      rw [hd]
      simp [pySlice]
    · rw [if_neg hd]
      rcases hq : cappedCands r lines cap with _ | ⟨c, cs⟩
      · exact absurd hq hne
      · rfl

theorem c9_span_floor_witness :
    span_x [⟨30, 150, 30, 850⟩] = 1 ∧
      processLines demoRegion demo2Lines 220 = some [seg2] := by
  have h9 := c9_span_floor [⟨30, 150, 30, 850⟩] demoRegion demo2Lines 220
  constructor
  · exact h9.1 (by norm_num [sx1, sx0, xsOf, pyMin, pyMax, List.foldl])
  · have hc := h9.2.2.2.2 (by rw [demo2_capped_eval]; exact List.cons_ne_nil _ _)
    rw [demo2_capped_eval, demo2_norm_eval] at hc
    exact hc

/-- C10: snap_angle never modifies the first endpoint; only the second
endpoint may change. -/
theorem c10_first_endpoint_fixed (x1 y1 x2 y2 : ℚ) :
    (snap_angle x1 y1 x2 y2).x1 = x1 ∧ (snap_angle x1 y1 x2 y2).y1 = y1 := by
  unfold snap_angle
  split_ifs <;> exact ⟨rfl, rfl⟩

end Vectorize
